import Mathlib

/-!
Shallow embedding of `mts_dumper.py` (kosonya/mts_dumper).

Python floats are modelled as rationals (ℚ); Python ints as ℤ.  Fallible
code returns `Option`/`Except`; the two unbounded `while` loops of the
source (the offset-resolver search loop and the message chunking loop)
are embedded with an explicit fuel parameter, `none` meaning the loop did
not finish within the given fuel.
-/

unseal Rat.add Rat.mul Rat.sub Rat.inv

set_option maxRecDepth 100000

instance {ε α : Type} [DecidableEq ε] [DecidableEq α] : DecidableEq (Except ε α) := fun a b =>
  match a, b with
  | .error e, .error f =>
    if h : e = f then isTrue (by rw [h]) else isFalse (by simp [h])
  | .ok x, .ok y =>
    if h : x = y then isTrue (by rw [h]) else isFalse (by simp [h])
  | .error _, .ok _ => isFalse (by simp)
  | .ok _, .error _ => isFalse (by simp)

namespace MtsDumper

/-- Module-level constant `notes` (line 30), the twelve chromatic note
names from C, written here as a concatenation of two halves. -/
def notes : List String :=
  ["C", "C#", "D", "D#", "E", "F"] ++ ["F#", "G", "G#", "A", "A#", "B"]

/-- Module-level constant `eqtemp12_cents` (line 31). -/
def eqtemp12_cents : List ℚ :=
  [0, 100, 200, 300, 400, 500, 600, 700, 800, 900, 1000, 1100]

/-- Module-level constant `midi_note_range` (line 32). -/
def midi_note_range : ℤ × ℤ := (0, 127)

/-- Module-level constant `midi_max_cents_offset` (line 35); the interval is open. -/
def midi_max_cents_offset : ℚ := 100

/-- Module-level constant `cents_in_octave` (line 37). -/
def cents_in_octave : ℚ := 1200

/-- Module-level constant `bytes_header` (line 38). -/
def bytes_header : ℤ := 8

/-- Module-level constant `bytes_per_note` (line 39). -/
def bytes_per_note : ℤ := 4

/-- Python list indexing `l[i]` with an `int` index: nonnegative indices
count from the front, negative indices from the back, anything else is an
`IndexError` (`none`). -/
def pyGet {α : Type} (l : List α) (i : ℤ) : Option α :=
  if 0 ≤ i then l.get? i.toNat
  else if 0 ≤ i + l.length then l.get? (i + l.length).toNat
  else none

/-- Python list slicing `l[:n]` with an `int` bound (clamping semantics). -/
def pyTake {α : Type} (n : ℤ) (l : List α) : List α :=
  if 0 ≤ n then l.take n.toNat else l.take (n + l.length).toNat

/-- Python list slicing `l[n:]` with an `int` bound (clamping semantics). -/
def pyDrop {α : Type} (n : ℤ) (l : List α) : List α :=
  if 0 ≤ n then l.drop n.toNat else l.drop (n + l.length).toNat

/-- Python 3 `round` on an exact value: round half to even. -/
def pyRound (x : ℚ) : ℤ :=
  let n := ⌊x⌋
  let f := x - n
  if f < 1/2 then n
  else if 1/2 < f then n + 1
  else if n % 2 = 0 then n else n + 1

/-- The exceptions `make_mts_tuple` can raise (lines 228, 231, 240). -/
inductive TupleError : Type
  | semitoneNotInRange
  | centsOffsetNotInRange
  | internalError
deriving DecidableEq, Repr

/-- `make_mts_tuple` (lines 209-242): encode one
`(note_id, step_offset, cents_offset)` triple as the `(semitone, msb, lsb)`
bytes of the MTS frequency-data format. -/
def make_mts_tuple (note_id : ℤ) (step_offset : ℤ) (cents_offset : ℚ) :
    Except TupleError (ℤ × ℤ × ℤ) :=
  let semitone : ℤ := note_id + step_offset
  if ¬(midi_note_range.1 ≤ semitone ∧ semitone ≤ midi_note_range.2) then
    .error .semitoneNotInRange
  else if ¬(0 ≤ cents_offset ∧ cents_offset < midi_max_cents_offset) then
    .error .centsOffsetNotInRange
  else
    let cents_to_midi_ratio : ℚ := (2^7 : ℚ) / midi_max_cents_offset
    let midi_offset : ℚ := cents_offset * cents_to_midi_ratio
    let msb : ℤ := ⌊midi_offset⌋
    let lsb : ℤ := pyRound ((midi_offset - msb) * (2^7 : ℚ))
    if ¬(0 ≤ semitone ∧ semitone ≤ 0x7F ∧ 0 ≤ msb ∧ msb ≤ 0x7F ∧
          0 ≤ lsb ∧ lsb ≤ 0x7F) then
      .error .internalError
    else
      .ok (semitone, msb, lsb)

/-- Helper for `stepwise_from_root`: walk the tail of the scale keeping the
value of the last appended element.  A `none` input step hits the source's
`new_scape.append(None)` line, which raises `NameError` (`new_scape` is an
undefined name); a set step after a `none` accumulator hits `None + note`,
which raises `TypeError`.  Both crashes are modelled as `none`. -/
def swfrAux (last : Option ℚ) : List (Option ℚ) → Option (List (Option ℚ))
  | [] => some []
  | none :: _ => none
  | some n :: rest =>
    match last with
    | none => none
    | some l => (swfrAux (some (l + n)) rest).map (fun t => some (l + n) :: t)

/-- `stepwise_from_root` (lines 155-165): convert successive deltas into
cumulative cents from the root by running sum.  `none` is Python `None`
("unset"); an overall `none` result models an uncaught exception. -/
def stepwise_from_root (scale : List (Option ℚ)) : Option (List (Option ℚ)) :=
  match scale with
  | [] => none
  | s0 :: rest => (swfrAux s0 rest).map (fun t => s0 :: t)

/-- The `while` loop of `offsets_from_another_scale` (lines 185-192), with
state `(cur_step, cur_note, steps_offset)` and an explicit fuel bound;
`none` means the loop did not finish within `fuel` iterations (or an index
error occurred). -/
def offsetLoop (baseScale : List ℚ) : ℕ → ℤ → ℚ → ℤ → Option (ℤ × ℚ)
  | 0, _, _, _ => none
  | fuel + 1, curStep, curNote, stepsOffset =>
    match pyGet baseScale curStep with
    | none => none
    | some base =>
      let cents_offset := curNote - base
      if 0 ≤ cents_offset ∧ cents_offset < midi_max_cents_offset then
        some (stepsOffset, cents_offset)
      else
        let sign : ℤ := if cents_offset < 0 then -1 else 1
        let curStep' := curStep + sign
        if 0 ≤ curStep' ∧ curStep' < (baseScale.length : ℤ) then
          offsetLoop baseScale fuel curStep' curNote (stepsOffset + sign)
        else
          offsetLoop baseScale fuel (curStep' - sign * baseScale.length)
            (curNote - sign * cents_in_octave) (stepsOffset + sign)

/-- The `for` loop of `offsets_from_another_scale` (lines 179-193): walk the
scale with its enumeration index `i`, stopping when the zip with
`baseScale` is exhausted.  An unset step contributes `none` (the source's
`(None, None)` pair). -/
def offsetsAux (fuel : ℕ) (baseScale : List ℚ) : ℕ → List (Option ℚ) →
    Option (List (Option (ℤ × ℚ)))
  | _, [] => some []
  | i, st :: rest =>
    if i < baseScale.length then
      match st with
      | none => (offsetsAux fuel baseScale (i + 1) rest).map (fun t => none :: t)
      | some c =>
        match offsetLoop baseScale fuel i c 0 with
        | none => none
        | some p => (offsetsAux fuel baseScale (i + 1) rest).map (fun t => some p :: t)
    else some []

/-- `offsets_from_another_scale` (lines 169-195): per-step canonical
deviation from the reference scale, as `(whole semitone offset, cents
offset)` pairs. -/
def offsets_from_another_scale (fuel : ℕ) (scale : List (Option ℚ))
    (baseScale : List ℚ) : Option (List (Option (ℤ × ℚ))) :=
  offsetsAux fuel baseScale 0 scale

/-- One step of the fuel estimate for the Offset Resolver. -/
def fuelStep (st : Option ℚ) (acc : ℕ) : ℕ :=
  match st with
  | none => acc
  | some c => max acc ((⌊c / 100⌋).natAbs + 12)

/-- Enough fuel for every search loop spawned by
`offsets_from_another_scale scale eqtemp12_cents` to finish. -/
def offsetsFuelFor (scale : List (Option ℚ)) : ℕ :=
  1 + scale.foldr fuelStep 0

/-- The exceptions `make_mts_messages_per_note_rt` can raise or propagate:
`valueError` from `notes.index` (line 263), `zeroDivisionError` from `% 0`,
`indexError` from `offsets[...]` (line 268), and the explicit "Too many
notes to tune in one message" exception (line 278). -/
inductive BatchError : Type
  | valueError
  | zeroDivisionError
  | indexError
  | tooManyNotes
deriving DecidableEq, Repr

/-- One MTS message as assembled at lines 286-293: the header pair, device
id, sub-ids, tuning program, the count byte (`len(buffer)`), the list of
`(noteId, semitone, msb, lsb)` tuples, and the EOM byte are fixed by
`messageBytes` below; the per-message data is the device id, the tuning
program, the count byte and the tuple list. -/
structure Message : Type where
  deviceId : ℤ
  tuningProgram : ℤ
  count : ℕ
  tuples : List (ℤ × ℤ × ℤ × ℤ)
deriving DecidableEq, Repr

/-- The byte sequence of a `Message` in the order fixed by lines 286-293
and flattened by the hex renderer (lines 310-319):
`F0 7F <deviceId> 08 02 <tuningProgram> <count> [kk xx yy zz]×count F7`. -/
def messageBytes (m : Message) : List ℤ :=
  [0xF0, 0x7F, m.deviceId, 0x08, 0x02, m.tuningProgram, (m.count : ℤ)] ++
    m.tuples.flatMap (fun t => [t.1, t.2.1, t.2.2.1, t.2.2.2]) ++ [0xF7]

/-- The tuple-collection `for` loop (lines 266-275): for `cnt` note ids
starting at `note_id`, look up the offsets table cyclically and encode each
set entry, skipping notes whose encoding raises (the bare `except:
continue`). -/
def collectTuples (offsets : List (Option (ℤ × ℚ))) (starting_step : ℤ)
    (notesLen : ℕ) : ℤ → ℕ → Except BatchError (List (ℤ × ℤ × ℤ × ℤ))
  | _, 0 => .ok []
  | note_id, cnt + 1 =>
    if notesLen = 0 then .error .zeroDivisionError
    else
      match pyGet offsets (Int.emod (note_id + starting_step) notesLen) with
      | none => .error .indexError
      | some none => collectTuples offsets starting_step notesLen (note_id + 1) cnt
      | some (some (so, co)) =>
        match make_mts_tuple note_id so co with
        | .error _ => collectTuples offsets starting_step notesLen (note_id + 1) cnt
        | .ok (st, mb, lb) =>
          (collectTuples offsets starting_step notesLen (note_id + 1) cnt).map
            (fun ts => (note_id, st, mb, lb) :: ts)

/-- The chunking `while` loop (lines 283-295): repeatedly slice off the
first `notes_per_message` tuples into a message.  Embedded with fuel;
`none` means the loop did not finish within `fuel` iterations. -/
def chunkLoop (device_id tuning_program : ℤ) (notes_per_message : ℤ) :
    ℕ → List (ℤ × ℤ × ℤ × ℤ) → Option (List Message)
  | _, [] => some []
  | 0, _ :: _ => none
  | fuel + 1, ts@(_ :: _) =>
    let buffer := pyTake notes_per_message ts
    let rest := pyDrop notes_per_message ts
    (chunkLoop device_id tuning_program notes_per_message fuel rest).map
      (fun ms => Message.mk device_id tuning_program buffer.length buffer :: ms)

/-- `make_mts_messages_per_note_rt` (lines 245-298).  The reference note
dict is passed as its `ID` and `note` fields; `midi_note_range` is an
unused parameter of the source function and is kept for fidelity.
`.error e` models an uncaught exception; `.ok none` means the chunking
loop did not finish within `fuel` iterations. -/
def make_mts_messages_per_note_rt (fuel : ℕ) (notes : List String)
    (offsets : List (Option (ℤ × ℚ))) (refNoteId : ℤ) (refNoteName : String)
    (midiNoteRange : ℤ × ℤ) (device_id : ℤ) (tuning_program : ℤ)
    (tuning_range : ℤ × ℤ) (notes_per_message : ℤ) :
    Except BatchError (Option (List Message)) :=
  match List.indexOf? refNoteName notes with
  | none => .error .valueError
  | some ix =>
    let ref_note_id : ℤ := refNoteId + (ix : ℤ)
    let starting_step : ℤ := Int.emod ref_note_id notes.length
    match collectTuples offsets starting_step notes.length tuning_range.1
        ((tuning_range.2 + 1 - tuning_range.1).toNat) with
    | .error e => .error e
    | .ok tuning_tuples =>
      if 0x7F < tuning_tuples.length then .error .tooManyNotes
      else .ok (chunkLoop device_id tuning_program notes_per_message fuel tuning_tuples)

/-- The default tuning range set at lines 75-76 of `main`. -/
def default_tuning_range : ℤ × ℤ := (0, 127)

/-- The notes-per-message derived from a byte limit at lines 113-114 of
`main`: `(bytes_per_message - bytes_header) // bytes_per_note`, with
Python floor division. -/
def notes_per_message_from_bytes (bytes_per_message : ℤ) : ℤ :=
  Int.fdiv (bytes_per_message - bytes_header) bytes_per_note

/-- The configuration test at lines 81-82 of `main`:
`len(tuning_range) > args.notes_per_message` raises
"Too many notes per message for a given range.".  `true` means the run
aborts. -/
def range_config_error (tuning_range : List ℤ) (notes_per_message : ℤ) : Bool :=
  notes_per_message < (tuning_range.length : ℤ)

/-- One batching iteration succeeds for `nid`: the cyclic table lookup is a
set entry and the Tuple Encoder accepts it. -/
def note_encode_ok (offsets : List (Option (ℤ × ℚ))) (starting_step : ℤ)
    (notesLen : ℕ) (nid : ℤ) : Bool :=
  match pyGet offsets (Int.emod (nid + starting_step) notesLen) with
  | some (some (so, co)) => (make_mts_tuple nid so co).isOk
  | _ => false

/-- A concrete 12-step scale exercising the Offset Resolver in both wrap
directions (witness input). -/
def scaleA : List (Option ℚ) :=
  [some 0, some 250, none, some (-50), some 100, some 500, some 600,
   some 700, some 800, some 900, some 1000, some 2500]

/-- The Offset Resolver's output on `scaleA` (witness value). -/
def resA : List (Option (ℤ × ℚ)) :=
  [some (0, 0), some (1, 50), none, some (-4, 50), some (-3, 0), some (0, 0),
   some (0, 0), some (0, 0), some (0, 0), some (0, 0), some (0, 0),
   some (14, 0)]

/-- A fully set offsets table retuning every note to equal temperament
(witness input). -/
def offsets0 : List (Option (ℤ × ℚ)) := List.replicate 12 (some (0, 0))

/-- The 128 tuning tuples the Batcher collects from `offsets0` over the
full MIDI range (witness value). -/
def ts128 : List (ℤ × ℤ × ℤ × ℤ) :=
  (List.range 128).map (fun n => ((n:ℤ), (n:ℤ), 0, 0))

/-- The single Message of the equal-temperament `[60,60]` scenario
(witness value). -/
def msgA : Message := Message.mk 127 0 1 [(60, 60, 0, 0)]

section PyRoundLemmas

lemma pyRound_mem (x : ℚ) : pyRound x = ⌊x⌋ ∨ pyRound x = ⌊x⌋ + 1 := by
  simp only [pyRound]
  split
  · exact Or.inl rfl
  · split
    · exact Or.inr rfl
    · split
      · exact Or.inl rfl
      · exact Or.inr rfl

lemma pyRound_nonneg (x : ℚ) (h : 0 ≤ x) : 0 ≤ pyRound x := by
  have hf : (0:ℤ) ≤ ⌊x⌋ := Int.floor_nonneg.mpr h
  rcases pyRound_mem x with h1 | h1 <;> omega

lemma pyRound_le_of_lt_half (x : ℚ) (b : ℤ) (hb : x < b + 1/2) : pyRound x ≤ b := by
  have hfl : ⌊x⌋ ≤ b := by
    have : x < (b:ℚ) + 1 := by linarith
    have := Int.floor_lt.mpr (by exact_mod_cast this : x < ((b + 1 : ℤ) : ℚ))
    omega
  simp only [pyRound]
  split
  · exact hfl
  · rename_i hge
    push_neg at hge
    have hlt : ⌊x⌋ < b := by
      by_contra hc
      push_neg at hc
      have hbe : ⌊x⌋ = b := le_antisymm hfl hc
      rw [hbe] at hge
      linarith
    split
    · omega
    · split <;> omega

lemma pyRound_eq_of_half_le (x : ℚ) (b : ℤ) (hodd : b % 2 = 1)
    (h1 : (b:ℚ) + 1/2 ≤ x) (h2 : x < (b:ℚ) + 1) : pyRound x = b + 1 := by
  have hfl : ⌊x⌋ = b := by
    have hge : b ≤ ⌊x⌋ := Int.le_floor.mpr (by linarith)
    have hlt : ⌊x⌋ < b + 1 := Int.floor_lt.mpr (by exact_mod_cast h2)
    omega
  simp only [pyRound]
  rw [hfl]
  split
  · rename_i hhalf
    exfalso
    have := Int.floor_le x
    rw [hfl] at this
    linarith
  · split
    · rfl
    · split
      · omega
      · rfl

end PyRoundLemmas

/-- C3 — corrected.  The Tuple Encoder's internal-consistency branch IS
reachable under the stated precondition (see
`tuple_encoder_internal_error_reachable`): when the fractional part of
`midiOffset = centsOffset·128/100` is at least `255/256`, the `lsb`
rounds up to `128` and the encoder raises its internal-consistency error;
in every other case all three produced bytes are in `[0, 127]`. -/
theorem tuple_encoder_ranges_amended (note_id step_offset : ℤ) (c : ℚ)
    (h1 : 0 ≤ note_id + step_offset) (h2 : note_id + step_offset ≤ 127)
    (h3 : 0 ≤ c) (h4 : c < 100) :
    (Int.fract (c * (128 / 100)) < 255 / 256 →
      ∃ s mb lb, make_mts_tuple note_id step_offset c = .ok (s, mb, lb) ∧
        0 ≤ s ∧ s ≤ 127 ∧ 0 ≤ mb ∧ mb ≤ 127 ∧ 0 ≤ lb ∧ lb ≤ 127) ∧
    (255 / 256 ≤ Int.fract (c * (128 / 100)) →
      make_mts_tuple note_id step_offset c = .error .internalError) := by
  have hm0 : (0:ℚ) ≤ c * (128 / 100) := by positivity
  have hm1 : c * (128 / 100) < 128 := by nlinarith
  have hmsb0 : (0:ℤ) ≤ ⌊c * (128 / 100)⌋ := Int.floor_nonneg.mpr hm0
  have hmsb1 : ⌊c * (128 / 100)⌋ ≤ 127 := by
    have h := Int.floor_lt.mpr (by exact_mod_cast hm1 : c * (128 / 100) < ((128:ℤ):ℚ))
    omega
  have hfr0 : (0:ℚ) ≤ Int.fract (c * (128 / 100)) := Int.fract_nonneg _
  have hfr1 : Int.fract (c * (128 / 100)) < 1 := Int.fract_lt_one _
  have hlsb0 : (0:ℤ) ≤ pyRound (Int.fract (c * (128 / 100)) * 128) :=
    pyRound_nonneg _ (by positivity)
  have h128eq : pyRound (Int.fract (c * (128 / 100)) * 128) ≤ 127 ↔
      Int.fract (c * (128 / 100)) < 255 / 256 := by
    constructor
    · intro hle
      by_contra hbig
      push_neg at hbig
      have h128 : pyRound (Int.fract (c * (128 / 100)) * 128) = 128 := by
        refine pyRound_eq_of_half_le _ 127 (by norm_num) ?_ ?_
        · calc ((127:ℤ):ℚ) + 1/2 = (255 / 256) * 128 := by norm_num
            _ ≤ Int.fract (c * (128 / 100)) * 128 :=
              mul_le_mul_of_nonneg_right hbig (by norm_num)
        · calc Int.fract (c * (128 / 100)) * 128 < 1 * 128 :=
              mul_lt_mul_of_pos_right hfr1 (by norm_num)
            _ = ((127:ℤ):ℚ) + 1 := by norm_num
      omega
    · intro hsmall
      refine pyRound_le_of_lt_half _ 127 ?_
      calc Int.fract (c * (128 / 100)) * 128 < (255 / 256) * 128 :=
          mul_lt_mul_of_pos_right hsmall (by norm_num)
        _ = (127:ℤ) + 1/2 := by norm_num
  simp only [make_mts_tuple]
  rw [show (2 ^ 7 : ℚ) / midi_max_cents_offset = 128 / 100 from by
        norm_num [midi_max_cents_offset],
      show ((2:ℚ) ^ 7) = 128 from by norm_num,
      Int.self_sub_floor]
  simp only [midi_note_range, midi_max_cents_offset]
  rw [if_neg (not_not_intro
      (⟨h1, h2⟩ : (0:ℤ) ≤ note_id + step_offset ∧ note_id + step_offset ≤ 127))]
  rw [if_neg (not_not_intro (⟨h3, h4⟩ : (0:ℚ) ≤ c ∧ c < 100))]
  by_cases hsm : Int.fract (c * (128 / 100)) < 255 / 256
  · have hle : pyRound (Int.fract (c * (128 / 100)) * 128) ≤ 127 := h128eq.mpr hsm
    rw [if_neg (not_not_intro ⟨h1, h2, hmsb0, hmsb1, hlsb0, hle⟩)]
    constructor
    · intro _
      exact ⟨note_id + step_offset, ⌊c * (128 / 100)⌋,
        pyRound (Int.fract (c * (128 / 100)) * 128), rfl,
        h1, h2, hmsb0, hmsb1, hlsb0, hle⟩
    · intro hbig
      exact absurd hsm (not_lt.mpr hbig)
  · push_neg at hsm
    have hnot : ¬ pyRound (Int.fract (c * (128 / 100)) * 128) ≤ 127 :=
      fun hle => absurd (h128eq.mp hle) (not_lt.mpr hsm)
    rw [if_pos (show ¬((0:ℤ) ≤ note_id + step_offset ∧ note_id + step_offset ≤ 127 ∧
          0 ≤ ⌊c * (128 / 100)⌋ ∧ ⌊c * (128 / 100)⌋ ≤ 127 ∧
          0 ≤ pyRound (Int.fract (c * (128 / 100)) * 128) ∧
          pyRound (Int.fract (c * (128 / 100)) * 128) ≤ 127) from
        fun hconj => hnot hconj.2.2.2.2.2)]
    constructor
    · intro hs
      exact absurd hs (not_lt.mpr hsm)
    · intro _
      rfl

/-- C3 — counterexample to the claim as stated: at
`noteId = 60`, `stepOffset = 0`, `centsOffset = 99.999` (inside the stated
precondition `0 ≤ centsOffset < 100`), the Tuple Encoder computes
`lsb = round(0.99872·128) = 128 > 0x7F` and takes the supposedly
unreachable internal-consistency error branch. -/
theorem tuple_encoder_internal_error_reachable :
    make_mts_tuple 60 0 (99999 / 1000) = .error .internalError := by decide

/-- Witness for `tuple_encoder_ranges_amended` at
`noteId = 60`, `stepOffset = 0`, `centsOffset = 50`. -/
theorem tuple_encoder_ranges_amended_witness :
    (0:ℚ) ≤ 50 ∧ (50:ℚ) < 100 ∧
      ∃ s mb lb, make_mts_tuple 60 0 50 = .ok (s, mb, lb) ∧
        0 ≤ s ∧ s ≤ 127 ∧ 0 ≤ mb ∧ mb ≤ 127 ∧ 0 ≤ lb ∧ lb ≤ 127 :=
  ⟨by norm_num, by norm_num,
    (tuple_encoder_ranges_amended 60 0 50 (by norm_num) (by norm_num)
      (by norm_num) (by norm_num)).1 (by decide)⟩

section OffsetResolver

lemma eqtemp_length : eqtemp12_cents.length = 12 := rfl

lemma pyGet_eqtemp (i : ℤ) (h0 : 0 ≤ i) (h12 : i < 12) :
    pyGet eqtemp12_cents i = some (100 * (i : ℚ)) := by
  interval_cases i <;> decide

lemma floor_div100_add (x : ℚ) : ⌊(x + 100) / 100⌋ = ⌊x / 100⌋ + 1 := by
  rw [add_div, div_self (by norm_num : (100:ℚ) ≠ 0)]
  exact_mod_cast Int.floor_add_int (x / 100) 1

lemma floor_div100_sub (x : ℚ) : ⌊(x - 100) / 100⌋ = ⌊x / 100⌋ - 1 := by
  rw [sub_div, div_self (by norm_num : (100:ℚ) ≠ 0)]
  exact_mod_cast Int.floor_sub_int (x / 100) 1

lemma offsetLoop_eqtemp : ∀ (fuel : ℕ) (i : ℤ) (c : ℚ) (s : ℤ),
    0 ≤ i → i < 12 → (⌊(c - 100 * (i:ℚ)) / 100⌋).natAbs < fuel →
    offsetLoop eqtemp12_cents fuel i c s =
      some (s + ⌊(c - 100 * (i:ℚ)) / 100⌋,
            c - 100 * (i:ℚ) - 100 * ⌊(c - 100 * (i:ℚ)) / 100⌋) := by
  intro fuel
  induction fuel with
  | zero => intro i c s _ _ h; exact absurd h (Nat.not_lt_zero _)
  | succ n ih =>
    intro i c s hi0 hi12 hfuel
    simp only [offsetLoop, pyGet_eqtemp i hi0 hi12, midi_max_cents_offset,
      cents_in_octave, eqtemp_length, Nat.cast_ofNat]
    by_cases h0 : 0 ≤ c - 100 * (i:ℚ) ∧ c - 100 * (i:ℚ) < 100
    · rw [if_pos h0]
      have hk : ⌊(c - 100 * (i:ℚ)) / 100⌋ = 0 := by
        rw [Int.floor_eq_zero_iff, Set.mem_Ico]
        refine ⟨div_nonneg h0.1 (by norm_num), ?_⟩
        rw [div_lt_one (by norm_num : (0:ℚ) < 100)]
        exact h0.2
      rw [hk]
      norm_num
    · rw [if_neg h0]
      by_cases hneg : c - 100 * (i:ℚ) < 0
      · rw [if_pos hneg]
        have hdivneg : (c - 100 * (i:ℚ)) / 100 < 0 :=
          div_neg_of_neg_of_pos hneg (by norm_num)
        have hkneg : ⌊(c - 100 * (i:ℚ)) / 100⌋ < 0 := by
          by_contra hcc
          push_neg at hcc
          exact absurd (Int.floor_nonneg.mp hcc) (not_le.mpr hdivneg)
        by_cases hwrap : 0 ≤ i + (-1 : ℤ) ∧ i + (-1 : ℤ) < (12 : ℤ)
        · rw [if_pos hwrap]
          have harg : c - 100 * (((i + -1 : ℤ)) : ℚ) = c - 100 * (i:ℚ) + 100 := by
            push_cast
            ring
          rw [ih (i + -1) c (s + -1) (by omega) (by omega)
            (by rw [harg, floor_div100_add]; omega)]
          rw [harg, floor_div100_add]
          simp only [Option.some.injEq, Prod.mk.injEq]
          constructor
          · ring
          · push_cast
            ring
        · rw [if_neg hwrap]
          have hI : i = 0 := by omega
          subst hI
          have hc0 : c - 100 * ((0:ℤ) : ℚ) = c := by push_cast; ring
          rw [hc0] at hfuel hkneg ⊢
          rw [show (0:ℤ) + -1 - -1 * (12 : ℤ) = 11 from by decide]
          rw [show c - ((-1:ℤ) : ℚ) * 1200 = c + 1200 from by push_cast; ring]
          have harg2 : c + 1200 - 100 * ((11:ℤ) : ℚ) = c + 100 := by
            push_cast
            ring
          rw [ih 11 (c + 1200) (s + -1) (by norm_num) (by norm_num)
            (by rw [harg2, floor_div100_add]; omega)]
          rw [harg2, floor_div100_add]
          simp only [Option.some.injEq, Prod.mk.injEq]
          constructor
          · ring
          · push_cast
            ring
      · rw [if_neg hneg]
        have h100 : (100:ℚ) ≤ c - 100 * (i:ℚ) := by
          push_neg at h0
          exact h0 (not_lt.mp hneg)
        have h1le : (1:ℚ) ≤ (c - 100 * (i:ℚ)) / 100 := by
          rw [le_div_iff (by norm_num : (0:ℚ) < 100)]
          linarith
        have hkpos : 1 ≤ ⌊(c - 100 * (i:ℚ)) / 100⌋ :=
          Int.le_floor.mpr (by exact_mod_cast h1le)
        by_cases hwrap : 0 ≤ i + (1 : ℤ) ∧ i + (1 : ℤ) < (12 : ℤ)
        · rw [if_pos hwrap]
          have harg : c - 100 * (((i + 1 : ℤ)) : ℚ) = c - 100 * (i:ℚ) - 100 := by
            push_cast
            ring
          rw [ih (i + 1) c (s + 1) (by omega) (by omega)
            (by rw [harg, floor_div100_sub]; omega)]
          rw [harg, floor_div100_sub]
          simp only [Option.some.injEq, Prod.mk.injEq]
          constructor
          · ring
          · push_cast
            ring
        · rw [if_neg hwrap]
          have hI : i = 11 := by omega
          subst hI
          rw [show (11:ℤ) + 1 - 1 * (12 : ℤ) = 0 from by decide]
          rw [show c - ((1:ℤ) : ℚ) * 1200 = c - 1200 from by push_cast; ring]
          have harg2 : c - 1200 - 100 * ((0:ℤ) : ℚ) = c - 100 * ((11:ℤ) : ℚ) - 100 := by
            push_cast
            ring
          rw [ih 0 (c - 1200) (s + 1) (by norm_num) (by norm_num)
            (by rw [harg2, floor_div100_sub]; omega)]
          rw [harg2, floor_div100_sub]
          simp only [Option.some.injEq, Prod.mk.injEq]
          constructor
          · ring
          · push_cast
            ring

lemma offsetsAux_eqtemp (fuel : ℕ) :
    ∀ (rest : List (Option ℚ)) (i : ℕ),
    (∀ j c, rest.get? j = some (some c) → i + j < 12 →
      (⌊(c - 100 * ((i + j : ℕ) : ℚ)) / 100⌋).natAbs < fuel) →
    ∃ res, offsetsAux fuel eqtemp12_cents i rest = some res ∧
      res.length = min rest.length (12 - i) ∧
      (∀ j, rest.get? j = some none → i + j < 12 → res.get? j = some none) ∧
      (∀ j c, rest.get? j = some (some c) → i + j < 12 →
        res.get? j = some (some
          (⌊(c - 100 * ((i + j : ℕ) : ℚ)) / 100⌋,
           c - 100 * ((i + j : ℕ) : ℚ) -
             100 * ⌊(c - 100 * ((i + j : ℕ) : ℚ)) / 100⌋))) := by
  intro rest
  induction rest with
  | nil =>
    intro i _
    refine ⟨[], rfl, by simp, ?_, ?_⟩
    · intro j hj _
      simp at hj
    · intro j c hj _
      simp at hj
  | cons st rest ih =>
    intro i h
    by_cases hi : i < 12
    · have hstep : ∀ j c, rest.get? j = some (some c) → (i + 1) + j < 12 →
          (⌊(c - 100 * (((i + 1) + j : ℕ) : ℚ)) / 100⌋).natAbs < fuel := by
        intro j c hj hlt
        have := h (j + 1) c (by simpa using hj) (by omega)
        rw [show i + (j + 1) = (i + 1) + j from by omega] at this
        exact this
      obtain ⟨res, hres, hlen, hn, hs⟩ := ih (i + 1) hstep
      cases st with
      | none =>
        refine ⟨none :: res, ?_, ?_, ?_, ?_⟩
        · simp only [offsetsAux, eqtemp_length]
          rw [if_pos hi, hres]
          rfl
        · simp only [List.length_cons, hlen]
          omega
        · intro j hj hlt
          cases j with
          | zero => rfl
          | succ j => exact hn j (by simpa using hj) (by omega)
        · intro j c hj hlt
          cases j with
          | zero => simp at hj
          | succ j =>
            have := hs j c (by simpa using hj) (by omega)
            rw [show i + (j + 1) = (i + 1) + j from by omega]
            exact this
      | some c =>
        have h0 := h 0 c rfl (by omega)
        have hloop := offsetLoop_eqtemp fuel (i : ℤ) c 0 (by positivity)
          (by exact_mod_cast hi)
          (by simpa only [Int.cast_natCast, Nat.add_zero] using h0)
        simp only [Int.cast_natCast, zero_add] at hloop
        refine ⟨some (⌊(c - 100 * ((i : ℕ) : ℚ)) / 100⌋,
          c - 100 * ((i : ℕ) : ℚ) -
            100 * ⌊(c - 100 * ((i : ℕ) : ℚ)) / 100⌋) :: res, ?_, ?_, ?_, ?_⟩
        · simp only [offsetsAux, eqtemp_length]
          rw [if_pos hi, hloop, hres]
          rfl
        · simp only [List.length_cons, hlen]
          omega
        · intro j hj hlt
          cases j with
          | zero => simp at hj
          | succ j => exact hn j (by simpa using hj) (by omega)
        · intro j c' hj hlt
          cases j with
          | zero =>
            have hc : c' = c := by
              have : some c = some c' := by simpa using hj
              exact (Option.some.inj this).symm
            subst hc
            simp only [Nat.add_zero]
            rfl
          | succ j =>
            have := hs j c' (by simpa using hj) (by omega)
            rw [show i + (j + 1) = (i + 1) + j from by omega]
            exact this
    · refine ⟨[], ?_, ?_, ?_, ?_⟩
      · simp only [offsetsAux, eqtemp_length]
        rw [if_neg hi]
      · simp only [List.length_cons, List.length_nil]
        omega
      · intro j _ hlt
        exact absurd hlt (by omega)
      · intro j c _ hlt
        exact absurd hlt (by omega)

lemma offsetsFuelFor_ge (scale : List (Option ℚ)) :
    ∀ j c, scale.get? j = some (some c) →
      (⌊c / 100⌋).natAbs + 12 < offsetsFuelFor scale := by
  unfold offsetsFuelFor
  induction scale with
  | nil =>
    intro j c hj
    simp at hj
  | cons st rest ih =>
    intro j c hj
    cases j with
    | zero =>
      have hst : st = some c := by simpa using hj
      subst hst
      simp only [List.foldr_cons, fuelStep]
      have := le_max_right (rest.foldr fuelStep 0) ((⌊c / 100⌋).natAbs + 12)
      omega
    | succ j =>
      have hrest : rest.get? j = some (some c) := by simpa using hj
      have := ih j c hrest
      simp only [List.foldr_cons, fuelStep]
      cases st with
      | none => exact this
      | some c' =>
        have hmax := le_max_left (rest.foldr fuelStep 0)
          ((⌊c' / 100⌋).natAbs + 12)
        simp only [fuelStep]
        omega

lemma floor_shift_nat (c : ℚ) (j : ℕ) :
    ⌊(c - 100 * (j : ℚ)) / 100⌋ = ⌊c / 100⌋ - j := by
  have harg : (c - 100 * (j : ℚ)) / 100 = c / 100 - ((j : ℤ) : ℚ) := by
    push_cast
    field_simp
  rw [harg, Int.floor_sub_int]

lemma offsets_eqtemp_spec (scale : List (Option ℚ)) :
    ∃ res, offsets_from_another_scale (offsetsFuelFor scale) scale
        eqtemp12_cents = some res ∧
      res.length = min scale.length 12 ∧
      (∀ j, scale.get? j = some none → j < 12 → res.get? j = some none) ∧
      (∀ j c, scale.get? j = some (some c) → j < 12 →
        res.get? j = some (some
          (⌊(c - 100 * (j : ℚ)) / 100⌋,
           c - 100 * (j : ℚ) - 100 * ⌊(c - 100 * (j : ℚ)) / 100⌋))) := by
  have hfuel : ∀ j c, scale.get? j = some (some c) → 0 + j < 12 →
      (⌊(c - 100 * ((0 + j : ℕ) : ℚ)) / 100⌋).natAbs < offsetsFuelFor scale := by
    intro j c hj hlt
    have hge := offsetsFuelFor_ge scale j c hj
    rw [show (0 + j : ℕ) = j from by omega, floor_shift_nat]
    omega
  obtain ⟨res, hres, hlen, hn, hs⟩ :=
    offsetsAux_eqtemp (offsetsFuelFor scale) scale 0 hfuel
  refine ⟨res, hres, by simpa using hlen, ?_, ?_⟩
  · intro j hj hlt
    exact hn j hj (by omega)
  · intro j c hj hlt
    have := hs j c hj (by omega)
    rw [show (0 + j : ℕ) = j from by omega] at this
    exact this

/-- C4 — confirmed.  The Offset Resolver's search loop terminates for
every finite input: with the explicitly computed fuel bound
`offsetsFuelFor scale`, `offsets_from_another_scale` returns a result for
every scale, i.e. it is a total function of its (finite rational) input. -/
theorem offsets_resolver_total (scale : List (Option ℚ)) :
    ∃ res, offsets_from_another_scale (offsetsFuelFor scale) scale
      eqtemp12_cents = some res :=
  (offsets_eqtemp_spec scale).imp (fun _ hp => hp.1)

/-- C1 — confirmed.  For every set step `c` at index `i < 12`, the Offset
Resolver returns a pair `(s, d)` with `0 ≤ d < 100` and
`c ≡ 100·i_resolved + d (mod 1200)` where `i_resolved = (i + s) mod 12` is
the wrapped table index reached by the loop; an unset step yields an unset
pair. -/
theorem offsets_resolver_canonical (scale : List (Option ℚ))
    (res : List (Option (ℤ × ℚ))) (i : ℕ)
    (hres : offsets_from_another_scale (offsetsFuelFor scale) scale
      eqtemp12_cents = some res)
    (hi : i < 12) :
    (scale.get? i = some none → res.get? i = some none) ∧
    (∀ c, scale.get? i = some (some c) →
      ∃ s d, res.get? i = some (some (s, d)) ∧ 0 ≤ d ∧ d < 100 ∧
        ∃ m : ℤ, c - (100 * ((Int.emod ((i : ℤ) + s) 12 : ℤ) : ℚ) + d) =
          1200 * m) := by
  obtain ⟨res', hres', _, hn, hs⟩ := offsets_eqtemp_spec scale
  rw [hres'] at hres
  have hre : res' = res := Option.some.inj hres
  subst hre
  constructor
  · intro hentry
    exact hn i hentry hi
  · intro c hentry
    set k : ℤ := ⌊(c - 100 * (i : ℚ)) / 100⌋ with hk
    set d : ℚ := c - 100 * (i : ℚ) - 100 * k with hd
    refine ⟨k, d, hs i c hentry hi, ?_, ?_, ?_⟩
    · have hfr : d = 100 * Int.fract ((c - 100 * (i : ℚ)) / 100) := by
        rw [Int.fract, hd, hk]
        field_simp
      rw [hfr]
      have := Int.fract_nonneg ((c - 100 * (i : ℚ)) / 100)
      linarith
    · have hfr : d = 100 * Int.fract ((c - 100 * (i : ℚ)) / 100) := by
        rw [Int.fract, hd, hk]
        field_simp
      rw [hfr]
      have := Int.fract_lt_one ((c - 100 * (i : ℚ)) / 100)
      linarith
    · refine ⟨Int.ediv ((i : ℤ) + k) 12, ?_⟩
      have hz : (i : ℤ) + k - Int.emod ((i : ℤ) + k) 12 =
          12 * Int.ediv ((i : ℤ) + k) 12 := by
        have h12 : 12 * Int.ediv ((i : ℤ) + k) 12 +
            Int.emod ((i : ℤ) + k) 12 = (i : ℤ) + k :=
          Int.ediv_add_emod _ _
        linarith
      have hzq := congrArg (fun z : ℤ => (z : ℚ)) hz
      push_cast at hzq
      rw [hd]
      push_cast
      linarith

/-- Witness for `offsets_resolver_canonical` on the concrete scale
`scaleA` at step index 1 (cents value 250). -/
theorem offsets_resolver_canonical_witness :
    offsets_from_another_scale (offsetsFuelFor scaleA) scaleA eqtemp12_cents
        = some resA ∧
      (∃ s d, resA.get? 1 = some (some (s, d)) ∧ 0 ≤ d ∧ d < 100 ∧
        ∃ m : ℤ, (250 : ℚ) -
          (100 * ((Int.emod ((1 : ℤ) + s) 12 : ℤ) : ℚ) + d) = 1200 * m) :=
  ⟨by decide,
    (offsets_resolver_canonical scaleA resA 1 (by decide) (by decide)).2
      250 (by decide)⟩

end OffsetResolver

/-- C8 — evaluation of the buggy configuration test of `main` (lines
81-82): the code compares the length of the two-element `[low, high]` pair
— a constant `2` — with `notes_per_message`, not the number of notes in
the range.  With range `[5,5]` (one note) and limit `1` it aborts although
the range fits the limit; with range `[0,127]` (128 notes) and limit `64`
it does not abort although the range exceeds the limit. -/
theorem range_limit_compares_pair_length :
    range_config_error [5, 5] 1 = true ∧
      range_config_error [0, 127] 64 = false ∧
      ∀ tr npm, range_config_error tr npm = true ↔ npm < (tr.length : ℤ) := by
  refine ⟨by decide, by decide, ?_⟩
  intro tr npm
  simp [range_config_error]

/-- C9 — evaluation of `stepwise_from_root` at a scale whose second step
is unset: the source's `new_scape.append(None)` (line 164) names an
undefined variable, so the run crashes with `NameError` instead of
propagating the unset step. -/
theorem stepwise_unset_step_crashes :
    stepwise_from_root
      ([some 0, none] ++ List.replicate 10 (some 100)) = none ∧
    stepwise_from_root
      [some 0, some 100, some 100, some 100, some 100, some 100, some 100,
       some 100, some 100, some 100, some 100, some 100] =
      some [some 0, some 100, some 200, some 300, some 400, some 500,
        some 600, some 700, some 800, some 900, some 1000, some 1100] := by
  constructor <;> decide

section Batcher

lemma notes_indexOf_C : List.indexOf? ("C") notes = some 0 := by decide

lemma flat4_length (l : List (ℤ × ℤ × ℤ × ℤ)) :
    (l.flatMap (fun t => [t.1, t.2.1, t.2.2.1, t.2.2.2])).length =
      4 * l.length := by
  induction l with
  | nil => rfl
  | cons a l ih =>
    simp only [List.flatMap_cons, List.length_append, List.length_cons,
      List.length_nil, ih]
    omega

lemma messageBytes_length (m : Message) :
    (messageBytes m).length = 8 + 4 * m.tuples.length := by
  simp only [messageBytes, List.length_append, List.length_cons,
    List.length_nil, flat4_length]
  omega

lemma chunkLoop_mem (dev prog npm : ℤ) :
    ∀ (fuel : ℕ) (ts : List (ℤ × ℤ × ℤ × ℤ)) (ms : List Message),
    chunkLoop dev prog npm fuel ts = some ms →
    ∀ m ∈ ms, m.deviceId = dev ∧ m.tuningProgram = prog ∧
      m.count = m.tuples.length := by
  intro fuel
  induction fuel with
  | zero =>
    intro ts ms h m hm
    cases ts with
    | nil =>
      have hms : ms = [] := (Option.some.inj h).symm
      subst hms
      simp at hm
    | cons a l => simp [chunkLoop] at h
  | succ n ihn =>
    intro ts ms h m hm
    cases ts with
    | nil =>
      have hms : ms = [] := (Option.some.inj h).symm
      subst hms
      simp at hm
    | cons a l =>
      simp only [chunkLoop] at h
      cases hrec : chunkLoop dev prog npm n (pyDrop npm (a :: l)) with
      | none =>
        rw [hrec] at h
        simp at h
      | some ms' =>
        rw [hrec] at h
        have hms : ms = Message.mk dev prog (pyTake npm (a :: l)).length
            (pyTake npm (a :: l)) :: ms' := by
          have := Option.some.inj h
          simpa using this.symm
        subst hms
        rcases List.mem_cons.mp hm with rfl | hm'
        · exact ⟨rfl, rfl, rfl⟩
        · exact ihn _ ms' hrec m hm'

lemma pyGet_emod_isSome (offsets : List (Option (ℤ × ℚ))) (L : ℕ)
    (hL : L ≠ 0) (hlen : L ≤ offsets.length) (x : ℤ) :
    ∃ e, pyGet offsets (Int.emod x L) = some e := by
  have hLpos : (0:ℤ) < (L : ℤ) := by exact_mod_cast Nat.pos_of_ne_zero hL
  have h0 : 0 ≤ Int.emod x L := Int.emod_nonneg x (by omega)
  have h1 : Int.emod x L < L := Int.emod_lt_of_pos x hLpos
  rw [pyGet, if_pos h0]
  have hidx : (Int.emod x L).toNat < offsets.length := by omega
  exact ⟨offsets.get ⟨(Int.emod x L).toNat, hidx⟩, List.get?_eq_get hidx⟩

lemma collect_len_ge (offsets : List (Option (ℤ × ℚ))) (ss : ℤ) (L : ℕ)
    (hL : L ≠ 0) (hlen : L ≤ offsets.length) :
    ∀ (cnt : ℕ) (m : ℕ) (nid : ℤ), m ≤ cnt →
    (∀ k : ℕ, k < m → note_encode_ok offsets ss L (nid + (k : ℤ)) = true) →
    ∃ ts, collectTuples offsets ss L nid cnt = .ok ts ∧ m ≤ ts.length := by
  intro cnt
  induction cnt with
  | zero =>
    intro m nid hm _
    exact ⟨[], rfl, by omega⟩
  | succ n ihn =>
    intro m nid hm hok
    obtain ⟨e, he⟩ := pyGet_emod_isSome offsets L hL hlen (nid + ss)
    cases e with
    | none =>
      have hm0 : m = 0 := by
        by_contra hm'
        have h0 := hok 0 (by omega)
        rw [note_encode_ok] at h0
        simp only [Nat.cast_zero, add_zero] at h0
        rw [he] at h0
        simp at h0
      subst hm0
      obtain ⟨ts, hts, _⟩ := ihn 0 (nid + 1) (by omega)
        (fun k hk => absurd hk (by omega))
      refine ⟨ts, ?_, by omega⟩
      simp only [collectTuples, if_neg hL]
      rw [he]
      exact hts
    | some pair =>
      obtain ⟨so, co⟩ := pair
      cases hmk : make_mts_tuple nid so co with
      | error err =>
        have hm0 : m = 0 := by
          by_contra hm'
          have h0 := hok 0 (by omega)
          rw [note_encode_ok] at h0
          simp only [Nat.cast_zero, add_zero] at h0
          rw [he] at h0
          dsimp only at h0
          rw [hmk] at h0
          simp [Except.isOk, Except.toBool] at h0
        subst hm0
        obtain ⟨ts, hts, _⟩ := ihn 0 (nid + 1) (by omega)
          (fun k hk => absurd hk (by omega))
        refine ⟨ts, ?_, by omega⟩
        simp only [collectTuples, if_neg hL]
        rw [he]
        dsimp only
        rw [hmk]
        exact hts
      | ok trip =>
        obtain ⟨st, mb, lb⟩ := trip
        obtain ⟨ts, hts, hlen'⟩ := ihn (m - 1) (nid + 1) (by omega)
          (fun k hk => by
            have hlift := hok (k + 1) (by omega)
            rw [show nid + ((k + 1 : ℕ) : ℤ) = (nid + 1) + (k : ℤ) from by
              push_cast
              ring] at hlift
            exact hlift)
        refine ⟨(nid, st, mb, lb) :: ts, ?_, by
          simp only [List.length_cons]
          omega⟩
        simp only [collectTuples, if_neg hL]
        rw [he]
        dsimp only
        rw [hmk, hts]
        rfl

lemma make_overflow_aux (fuel : ℕ) (notesL : List String)
    (offsets : List (Option (ℤ × ℚ))) (refId : ℤ) (refName : String)
    (mnr : ℤ × ℤ) (dev prog : ℤ) (trange : ℤ × ℤ) (npm : ℤ) (ix : ℕ)
    (ts : List (ℤ × ℤ × ℤ × ℤ))
    (hix : List.indexOf? refName notesL = some ix)
    (hcol : collectTuples offsets
        (Int.emod (refId + (ix : ℤ)) (notesL.length : ℤ)) notesL.length
        trange.1 ((trange.2 + 1 - trange.1).toNat) = .ok ts)
    (hbig : 127 < ts.length) :
    make_mts_messages_per_note_rt fuel notesL offsets refId refName mnr dev
      prog trange npm = .error .tooManyNotes := by
  unfold make_mts_messages_per_note_rt
  rw [hix]
  dsimp only
  rw [hcol]
  dsimp only
  rw [if_pos hbig]

lemma pyDrop_ne_nil {α : Type} (n : ℤ) (l : List α) (hn : n ≤ 0)
    (hl : l ≠ []) : pyDrop n l ≠ [] := by
  have hlen : 0 < l.length := List.length_pos.mpr hl
  unfold pyDrop
  split
  · rename_i h
    have hz : n = 0 := le_antisymm hn h
    subst hz
    simpa using hl
  · rename_i h
    intro hcontra
    rw [List.drop_eq_nil_iff_le] at hcontra
    omega

lemma chunkLoop_diverges (dev prog npm : ℤ) (hnpm : npm ≤ 0) :
    ∀ (fuel : ℕ) (ts : List (ℤ × ℤ × ℤ × ℤ)), ts ≠ [] →
    chunkLoop dev prog npm fuel ts = none := by
  intro fuel
  induction fuel with
  | zero =>
    intro ts hts
    cases ts with
    | nil => exact absurd rfl hts
    | cons a l => rfl
  | succ n ihn =>
    intro ts hts
    cases ts with
    | nil => exact absurd rfl hts
    | cons a l =>
      simp only [chunkLoop]
      rw [ihn _ (pyDrop_ne_nil npm (a :: l) hnpm (by simp))]
      rfl

end Batcher

/-- C2 — confirmed.  Every Message the Batcher produces has the exact
byte layout `F0 7F deviceId 08 02 tuningProgram count [kk xx yy zz]×count
F7` with the count byte equal to the tuple count, so its byte length is
`8 + 4·count`; and on the equal-temperament scenario (range `[60,60]`,
reference note C4 = 60, device 127, program 0) the single Message's bytes
are `F0 7F 7F 08 02 00 01 3C 3C 00 00 F7`. -/
theorem mts_message_wire_layout :
    (∀ (fuel : ℕ) (notesL : List String) (offsets : List (Option (ℤ × ℚ)))
      (refId : ℤ) (refName : String) (mnr : ℤ × ℤ) (dev prog : ℤ)
      (trange : ℤ × ℤ) (npm : ℤ) (msgs : List Message),
      make_mts_messages_per_note_rt fuel notesL offsets refId refName mnr dev
        prog trange npm = .ok (some msgs) →
      ∀ m ∈ msgs,
        messageBytes m =
          [0xF0, 0x7F, m.deviceId, 0x08, 0x02, m.tuningProgram,
            (m.count : ℤ)] ++
            m.tuples.flatMap (fun t => [t.1, t.2.1, t.2.2.1, t.2.2.2]) ++
            [0xF7] ∧
        m.count = m.tuples.length ∧
        (messageBytes m).length = 8 + 4 * m.tuples.length) ∧
    offsets_from_another_scale 1 (eqtemp12_cents.map some) eqtemp12_cents =
      some offsets0 ∧
    make_mts_messages_per_note_rt 2 notes offsets0 60 "C" midi_note_range 127
      0 (60, 60) 127 = .ok (some [msgA]) ∧
    messageBytes msgA =
      [0xF0, 0x7F, 0x7F, 0x08, 0x02, 0x00, 0x01, 0x3C, 0x3C, 0x00, 0x00,
        0xF7] := by
  refine ⟨?_, by decide, by decide, by decide⟩
  intro fuel notesL offsets refId refName mnr dev prog trange npm msgs h m hm
  unfold make_mts_messages_per_note_rt at h
  split at h
  · exact absurd h (by simp)
  · dsimp only at h
    split at h
    · exact absurd h (by simp)
    · split at h
      · exact absurd h (by simp)
      · have hchunk := Except.ok.inj h
        have hmem := chunkLoop_mem dev prog npm fuel _ msgs hchunk m hm
        exact ⟨rfl, hmem.2.2, messageBytes_length m⟩

/-- Witness for `mts_message_wire_layout` on the equal-temperament
`[60,60]` scenario. -/
theorem mts_message_wire_layout_witness :
    make_mts_messages_per_note_rt 2 notes offsets0 60 "C" midi_note_range 127
        0 (60, 60) 127 = .ok (some [msgA]) ∧
      msgA.count = msgA.tuples.length ∧
      (messageBytes msgA).length = 8 + 4 * msgA.tuples.length :=
  ⟨by decide,
    (mts_message_wire_layout.1 2 notes offsets0 60 ("C") midi_note_range 127
      0 (60, 60) 127 [msgA] (by decide) msgA (by simp)).2.1,
    (mts_message_wire_layout.1 2 notes offsets0 60 ("C") midi_note_range 127
      0 (60, 60) 127 [msgA] (by decide) msgA (by simp)).2.2⟩

/-- C5 — confirmed.  If the tuple-collection loop succeeds with more than
127 tuples for the requested range, the Batcher raises the fatal "Too many
notes to tune in one message" error before any splitting, and no Messages
are produced. -/
theorem batcher_overflow_fatal (fuel : ℕ) (notesL : List String)
    (offsets : List (Option (ℤ × ℚ))) (refId : ℤ) (refName : String)
    (mnr : ℤ × ℤ) (dev prog : ℤ) (trange : ℤ × ℤ) (npm : ℤ) (ix : ℕ)
    (ts : List (ℤ × ℤ × ℤ × ℤ))
    (hix : List.indexOf? refName notesL = some ix)
    (hcol : collectTuples offsets
        (Int.emod (refId + (ix : ℤ)) (notesL.length : ℤ)) notesL.length
        trange.1 ((trange.2 + 1 - trange.1).toNat) = .ok ts)
    (hbig : 127 < ts.length) :
    make_mts_messages_per_note_rt fuel notesL offsets refId refName mnr dev
      prog trange npm = .error .tooManyNotes :=
  make_overflow_aux fuel notesL offsets refId refName mnr dev prog trange npm
    ix ts hix hcol hbig

/-- Witness for `batcher_overflow_fatal`: the fully set table `offsets0`
over the full range `[0,127]` collects 128 tuples and aborts. -/
theorem batcher_overflow_fatal_witness :
    make_mts_messages_per_note_rt 1 notes offsets0 60 "C" midi_note_range 127
      0 (0, 127) 127 = .error .tooManyNotes :=
  batcher_overflow_fatal 1 notes offsets0 60 ("C") midi_note_range 127 0
    (0, 127) 127 0 ts128 (by decide) (by decide) (by decide)

/-- C7 — confirmed.  With the default note range `[0,127]`, a fully set
offsets table whose every note encodes successfully always collects
128 > 127 tuples, so the Batcher inevitably raises the "too many notes"
fatal error and produces no output. -/
theorem default_range_full_scale_fatal (fuel : ℕ)
    (offsets : List (Option (ℤ × ℚ))) (mnr : ℤ × ℤ) (dev prog npm : ℤ)
    (hlen : offsets.length = 12)
    (_hset : ∀ e ∈ offsets, e ≠ none)
    (hok : ∀ nid ∈ Finset.Icc (0:ℤ) 127, note_encode_ok offsets 0 12 nid
      = true) :
    make_mts_messages_per_note_rt fuel notes offsets 60 "C" mnr dev prog
      default_tuning_range npm = .error .tooManyNotes := by
  obtain ⟨ts, hcol, hts⟩ := collect_len_ge offsets 0 12 (by decide)
    (by omega) 128 128 0 le_rfl
    (fun k hk => by
      have hmem : ((0:ℤ) + (k : ℤ)) ∈ Finset.Icc (0:ℤ) 127 := by
        rw [Finset.mem_Icc]
        omega
      exact hok _ hmem)
  have hcol' : collectTuples offsets
      (Int.emod ((60:ℤ) + ((0:ℕ) : ℤ)) ((notes.length : ℕ) : ℤ))
      notes.length default_tuning_range.1
      ((default_tuning_range.2 + 1 - default_tuning_range.1).toNat) =
      .ok ts := hcol
  exact make_overflow_aux fuel notes offsets 60 ("C") mnr dev prog
    default_tuning_range npm 0 ts notes_indexOf_C hcol' (by omega)

/-- Witness for `default_range_full_scale_fatal` at the fully set table
`offsets0`. -/
theorem default_range_full_scale_fatal_witness :
    make_mts_messages_per_note_rt 1 notes offsets0 60 "C" midi_note_range 127
      0 default_tuning_range 127 = .error .tooManyNotes :=
  default_range_full_scale_fatal 1 offsets0 midi_note_range 127 0 127
    (by decide) (by decide) (by decide)

/-- C6 — counterexample to the claim as stated: with every step set
(`offsets0`), range `[0,199]` (200 notes, first 128 of which all encode)
and `notesPerMessage = 127`, the Batcher does not return two Messages — it
raises the "too many notes" fatal error, because the 128 collected tuples
already exceed the 127-tuple cap checked before any splitting. -/
theorem two_hundred_note_range_counterexample :
    make_mts_messages_per_note_rt 3 notes offsets0 60 "C" midi_note_range 127
      0 (0, 199) 127 = .error .tooManyNotes := by decide

/-- C6 — corrected.  When the requested range spans 200 notes with all
steps set and the first 128 notes encoding successfully, the Batcher never
returns Messages: it raises the fatal "too many notes" error, since at
least 128 > 127 tuples are collected before any splitting. -/
theorem two_hundred_note_range_fatal (fuel : ℕ)
    (offsets : List (Option (ℤ × ℚ))) (mnr : ℤ × ℤ) (dev prog t0 : ℤ)
    (hlen : offsets.length = 12)
    (hok : ∀ k : ℕ, k < 128 →
      note_encode_ok offsets 0 12 (t0 + (k : ℤ)) = true) :
    make_mts_messages_per_note_rt fuel notes offsets 60 "C" mnr dev prog
      (t0, t0 + 199) 127 = .error .tooManyNotes := by
  obtain ⟨ts, hcol, hts⟩ := collect_len_ge offsets 0 12 (by decide)
    (by omega) 200 128 t0 (by omega) hok
  have hcol' : collectTuples offsets
      (Int.emod ((60:ℤ) + ((0:ℕ) : ℤ)) ((notes.length : ℕ) : ℤ))
      notes.length (t0, t0 + 199).1
      (((t0, t0 + 199).2 + 1 - (t0, t0 + 199).1).toNat) = .ok ts := by
    have hcnt : ((t0 + 199 + 1 - t0 : ℤ)).toNat = 200 := by omega
    dsimp only
    rw [hcnt]
    exact hcol
  exact make_overflow_aux fuel notes offsets 60 ("C") mnr dev prog
    (t0, t0 + 199) 127 0 ts notes_indexOf_C hcol' (by omega)

/-- Witness for `two_hundred_note_range_fatal` at `offsets0`, range
`[0,199]`. -/
theorem two_hundred_note_range_fatal_witness :
    make_mts_messages_per_note_rt 4 notes offsets0 60 "C" midi_note_range 127
      0 ((0:ℤ), (0:ℤ) + 199) 127 = .error .tooManyNotes :=
  two_hundred_note_range_fatal 4 offsets0 midi_note_range 127 0 0
    (by decide) (by decide)

/-- C10 — confirmed.  A bytes-per-message limit between 8 and 11 makes
`notes_per_message = (bytes − 8) // 4 = 0`; and whenever
`notes_per_message ≤ 0` and at least one tuning tuple was collected (with
at most 127, so the overflow check passes), the chunking loop never
terminates: for every fuel bound the embedded loop fails to finish, i.e.
`make_mts_messages_per_note_rt` is not total for such limits. -/
theorem chunking_diverges_nonpositive_limit :
    (∀ b : ℤ, 8 ≤ b → b ≤ 11 → notes_per_message_from_bytes b = 0) ∧
    (∀ (fuel : ℕ) (notesL : List String) (offsets : List (Option (ℤ × ℚ)))
      (refId : ℤ) (refName : String) (mnr : ℤ × ℤ) (dev prog : ℤ)
      (trange : ℤ × ℤ) (npm : ℤ) (ix : ℕ) (ts : List (ℤ × ℤ × ℤ × ℤ)),
      npm ≤ 0 →
      List.indexOf? refName notesL = some ix →
      collectTuples offsets
        (Int.emod (refId + (ix : ℤ)) (notesL.length : ℤ)) notesL.length
        trange.1 ((trange.2 + 1 - trange.1).toNat) = .ok ts →
      ts ≠ [] → ts.length ≤ 127 →
      make_mts_messages_per_note_rt fuel notesL offsets refId refName mnr dev
        prog trange npm = .ok none) := by
  constructor
  · intro b h1 h2
    unfold notes_per_message_from_bytes bytes_header bytes_per_note
    interval_cases b <;> decide
  · intro fuel notesL offsets refId refName mnr dev prog trange npm ix ts
      hnpm hix hcol hne hle
    unfold make_mts_messages_per_note_rt
    rw [hix]
    dsimp only
    rw [hcol]
    dsimp only
    rw [if_neg (by omega)]
    rw [chunkLoop_diverges dev prog npm hnpm fuel ts hne]

/-- Witness for `chunking_diverges_nonpositive_limit`: with limit 0 and a
two-note range the loop exhausts any fuel (here 5) without producing
messages. -/
theorem chunking_diverges_nonpositive_limit_witness :
    make_mts_messages_per_note_rt 5 notes offsets0 60 "C" midi_note_range 127
      0 (60, 61) 0 = .ok none :=
  chunking_diverges_nonpositive_limit.2 5 notes offsets0 60 ("C")
    midi_note_range 127 0 (60, 61) 0 0 [(60, 60, 0, 0), (61, 61, 0, 0)]
    (by decide) (by decide) (by decide) (by decide) (by decide)

end MtsDumper
